import Mathlib

/-!
Verification of the SSE connection registry (`src/lib/sse.ts`).

Shallow embedding conventions:
* A `ReadableStreamDefaultController` (the write sink) is identified by a `Nat`;
  each physical connection owns a distinct controller object, so distinct
  connections of one client carry distinct sink identifiers in reachable states.
* The JS `Map<string, Set<Client>>` is an insertion-ordered association list
  `List (String × List Conn)`; `Map.set` on a present key updates the entry in
  place, on an absent key appends at the end; `Map.delete` removes the entry.
  A JS `Set` is an insertion-ordered list; `Set.add` of a fresh object appends.
* A payload is represented by its JSON serialization (an opaque `String`):
  `JSON.stringify` is deterministic, and the registry never inspects payloads.
* Effects are made explicit: `writeOk sink` says whether `controller.enqueue`
  succeeds on that sink during the operation (a failing enqueue throws, which
  the source catches); `closeThrows sink` says whether `controller.close()`
  throws (the source swallows this).  Timestamps (`Date.now()`) are passed as
  an explicit `now : Nat`.  Write attempts and close attempts are returned as
  traces so that delivery claims can be stated.
-/

/-- Connection record: the `Client` type of `sse.ts` (one entry per physical
connection; `controller` is modelled by the `sink` identifier). -/
structure Conn where
  id : String
  name : Option String
  sink : Nat
  lastSeen : Nat
  connectedAt : Nat
deriving DecidableEq

/-- Registry state: the `clients : Map<string, Set<Client>>` module-level map. -/
abbrev Registry := List (String × List Conn)

/-- Lookup `clients.get(cid)`. -/
def lookupConns (reg : Registry) (cid : String) : Option (List Conn) :=
  match reg with
  | [] => none
  | (k, v) :: rest => if k = cid then some v else lookupConns rest cid

/-- Write `clients.set(cid, cs)`: update the entry in place when the key is
present, append a new entry otherwise (JS `Map` insertion-order semantics). -/
def mapSet (reg : Registry) (cid : String) (cs : List Conn) : Registry :=
  match reg with
  | [] => [(cid, cs)]
  | (k, v) :: rest => if k = cid then (cid, cs) :: rest else (k, v) :: mapSet rest cid cs

/-- Write `clients.delete(cid)`: drop the entry for the key, if present. -/
def mapDelete (reg : Registry) (cid : String) : Registry :=
  match reg with
  | [] => []
  | (k, v) :: rest => if k = cid then rest else (k, v) :: mapDelete rest cid

/-- Outcome of `controller.close()`: throws or returns, per the oracle. -/
def closeSink (closeThrows : Nat → Bool) (s : Nat) : Except Unit Unit :=
  if closeThrows s then Except.error () else Except.ok ()

/-- Result of `try { c.controller.close() } catch \x7b\x7d`: the attempt is made and
either outcome is swallowed; only the fact that `close` was called remains. -/
def closeSwallow (closeThrows : Nat → Bool) (s : Nat) : List Nat :=
  match closeSink closeThrows s with
  | Except.ok _ => [s]
  | Except.error _ => [s]

/-- Embedding of `addClient(clientId, controller, name?)` (`sse.ts` lines
96–122): build the `Client` record with `connectedAt = lastSeen = now`, create
the client's set if absent, and add the record (JS `Set.add` of a fresh object
appends in insertion order).  Returns the new registry and the new record. -/
def addClient (reg : Registry) (clientId : String) (sink : Nat) (name : Option String)
    (now : Nat) : Registry × Conn :=
  let c : Conn := ⟨clientId, name, sink, now, now⟩
  let reg1 := if (lookupConns reg clientId).isNone then mapSet reg clientId [] else reg
  let set := (lookupConns reg1 clientId).getD []
  (mapSet reg1 clientId (set ++ [c]), c)

/-- Helper for the specific-controller branch of `removeClient`: scan the set in
insertion order for the first connection whose controller matches, delete it and
stop (`break`).  Returns the set after deletion and the matched sink, if any. -/
def removeFirstSink (set : List Conn) (ctrl : Nat) : Option (List Conn × Nat) :=
  match set with
  | [] => none
  | c :: rest =>
    if c.sink = ctrl then some (rest, c.sink)
    else match removeFirstSink rest ctrl with
      | some (cs, s) => some (c :: cs, s)
      | none => none

/-- Embedding of `removeClient(clientId, controller?)` (`sse.ts` lines 124–162).
With no controller: close every sink and delete the client key.  With a
controller: delete the first matching connection (closing its sink, the close
outcome swallowed), then delete the key when the set is left empty.  Unknown
`clientId` is a no-op.  Returns the new registry and the sinks on which
`close()` was called. -/
def removeClient (closeThrows : Nat → Bool) (reg : Registry) (clientId : String)
    (controller : Option Nat) : Registry × List Nat :=
  match lookupConns reg clientId with
  | none => (reg, [])
  | some set =>
    match controller with
    | none =>
      let closedNow := set.flatMap (fun c => closeSwallow closeThrows c.sink)
      (mapDelete reg clientId, closedNow)
    | some ctrl =>
      let (set1, closedNow) :=
        match removeFirstSink set ctrl with
        | some (cs, s) => (cs, closeSwallow closeThrows s)
        | none => (set, [])
      if set1.isEmpty then (mapDelete reg clientId, closedNow)
      else (mapSet reg clientId set1, closedNow)

/-- Wire frame built by the dispatcher: `event: ${eventName}\ndata: ${data}\n\n`. -/
def frame (eventName data : String) : String :=
  "event: " ++ eventName ++ "\ndata: " ++ data ++ "\n\n"

/-- Record of one `enqueue` attempt on a sink: the frame offered and whether the
write succeeded. -/
structure WriteEv where
  sink : Nat
  fr : String
  ok : Bool
deriving DecidableEq

/-- Mutation `c.lastSeen = now` of one connection object: replace the record in
the set (first occurrence: records model object identity, and connections of one
client have distinct sinks in reachable states). -/
def updateLastSeen (set : List Conn) (c : Conn) (now : Nat) : List Conn :=
  match set with
  | [] => []
  | x :: rest =>
    if x = c then ⟨x.id, x.name, x.sink, now, x.connectedAt⟩ :: rest
    else x :: updateLastSeen rest c now

/-- Effect on the registry of the object mutation `c.lastSeen = now`, for a
connection of client `cid`: the registry holds the same object, so its entry
changes exactly when the object is still in the client's live set. -/
def touch (reg : Registry) (cid : String) (c : Conn) (now : Nat) : Registry :=
  match lookupConns reg cid with
  | some live => mapSet reg cid (updateLastSeen live c now)
  | none => reg

/-- Loop body of `sendEvent` (`sse.ts` lines 230–239): `for (const c of set)`
iterates the LIVE set (no `Array.from` snapshot).  JS `Set` iteration visits, in
insertion order, exactly those elements of the start-of-loop set that have not
meanwhile been deleted from the live set (nothing is ever added during the
sweep), hence the membership test against the live set.  A successful `enqueue`
is followed by `c.lastSeen = Date.now()` and `sentCount++`; a throwing `enqueue`
triggers `removeClient(clientId, c.controller)`.  Accumulates the registry, the
success counter, the write-attempt trace and the closed-sink trace. -/
def sendLoop (closeThrows writeOk : Nat → Bool) (now : Nat) (clientId chunk : String) :
    List Conn → Registry → Nat → List WriteEv → List Nat →
      Registry × Nat × List WriteEv × List Nat
  | [], reg, cnt, ws, cl => (reg, cnt, ws, cl)
  | c :: rest, reg, cnt, ws, cl =>
    if c ∈ (lookupConns reg clientId).getD [] then
      if writeOk c.sink then
        sendLoop closeThrows writeOk now clientId chunk rest
          (touch reg clientId c now) (cnt + 1) (ws ++ [⟨c.sink, chunk, true⟩]) cl
      else
        let (reg1, cls) := removeClient closeThrows reg clientId (some c.sink)
        sendLoop closeThrows writeOk now clientId chunk rest
          reg1 cnt (ws ++ [⟨c.sink, chunk, false⟩]) (cl ++ cls)
    else
      sendLoop closeThrows writeOk now clientId chunk rest reg cnt ws cl

/-- Result of one dispatcher call: return value, registry after the call, write
attempts made, sinks closed. -/
structure SendOut where
  ok : Bool
  reg : Registry
  writes : List WriteEv
  closed : List Nat
deriving DecidableEq

/-- Embedding of `sendEvent(clientId, eventName, payload)` (`sse.ts` lines
212–246): absent or empty connection set logs a warning and returns `false`
without touching the registry; otherwise the frame is built once and written to
each connection via `sendLoop`, and the call returns `sentCount > 0`. -/
def sendEvent (closeThrows writeOk : Nat → Bool) (now : Nat) (reg : Registry)
    (clientId eventName payload : String) : SendOut :=
  match lookupConns reg clientId with
  | none => ⟨false, reg, [], []⟩
  | some set =>
    if set.isEmpty then ⟨false, reg, [], []⟩
    else
      let chunk := frame eventName payload
      let (reg1, cnt, ws, cl) := sendLoop closeThrows writeOk now clientId chunk set reg 0 [] []
      ⟨cnt != 0, reg1, ws, cl⟩

/-- Inner loop of `broadcast` (`sse.ts` lines 265–273): `for (const c of
Array.from(set))` iterates a SNAPSHOT of the client's set taken before the
sweep, so evictions cannot affect the iteration target.  Same per-connection
body as `sendLoop`, counting `clientSent`. -/
def snapLoop (closeThrows writeOk : Nat → Bool) (now : Nat) (clientId chunk : String) :
    List Conn → Registry → Nat → List WriteEv → List Nat →
      Registry × Nat × List WriteEv × List Nat
  | [], reg, cnt, ws, cl => (reg, cnt, ws, cl)
  | c :: rest, reg, cnt, ws, cl =>
    if writeOk c.sink then
      snapLoop closeThrows writeOk now clientId chunk rest
        (touch reg clientId c now) (cnt + 1) (ws ++ [⟨c.sink, chunk, true⟩]) cl
    else
      let (reg1, cls) := removeClient closeThrows reg clientId (some c.sink)
      snapLoop closeThrows writeOk now clientId chunk rest
        reg1 cnt (ws ++ [⟨c.sink, chunk, false⟩]) (cl ++ cls)

/-- Outer loop of `broadcast`: `for (const [clientId, set] of clients)` over the
map entries.  Evictions during the sweep only ever touch the entry currently
being visited, so the iteration is over the entries present at sweep start with
each client's snapshot equal to its start-of-sweep set.  `totalSent` accumulates
`clientSent` when positive, exactly as in the source. -/
def broadcastLoop (closeThrows writeOk : Nat → Bool) (now : Nat) (chunk : String) :
    List (String × List Conn) → Registry → Nat → List WriteEv → List Nat →
      Registry × Nat × List WriteEv × List Nat
  | [], reg, tot, ws, cl => (reg, tot, ws, cl)
  | (clientId, set) :: rest, reg, tot, ws, cl =>
    let (reg1, clientSent, ws1, cl1) :=
      snapLoop closeThrows writeOk now clientId chunk set reg 0 ws cl
    broadcastLoop closeThrows writeOk now chunk rest reg1
      (if clientSent > 0 then tot + clientSent else tot) ws1 cl1

/-- Embedding of `broadcast(eventName, payload)` (`sse.ts` lines 255–286): build
the frame once, sweep every connection of every registered client, return the
total number of successful writes. -/
def broadcast (closeThrows writeOk : Nat → Bool) (now : Nat) (reg : Registry)
    (eventName payload : String) : Nat × Registry × List WriteEv × List Nat :=
  let chunk := frame eventName payload
  let (reg1, tot, ws, cl) := broadcastLoop closeThrows writeOk now chunk reg reg 0 [] []
  (tot, reg1, ws, cl)

/-- Heartbeat frame: `event: __heartbeat\ndata: ${JSON.stringify({ts: now})}\n\n`. -/
def heartbeatFrame (now : Nat) : String :=
  "event: __heartbeat\ndata: \x7b\"ts\":" ++ toString now ++ "\x7d\n\n"

/-- Inner loop of the heartbeat tick (`sse.ts` lines 72–84): `for (const c of
Array.from(set))` over a snapshot; a successful probe write updates `lastSeen`,
a failing one increments `deadConnections` and evicts that connection. -/
def hbLoop (closeThrows writeOk : Nat → Bool) (now : Nat) (clientId : String) :
    List Conn → Registry → Nat → List WriteEv → List Nat →
      Registry × Nat × List WriteEv × List Nat
  | [], reg, dead, ws, cl => (reg, dead, ws, cl)
  | c :: rest, reg, dead, ws, cl =>
    if writeOk c.sink then
      hbLoop closeThrows writeOk now clientId rest
        (touch reg clientId c now) dead (ws ++ [⟨c.sink, heartbeatFrame now, true⟩]) cl
    else
      let (reg1, cls) := removeClient closeThrows reg clientId (some c.sink)
      hbLoop closeThrows writeOk now clientId rest
        reg1 (dead + 1) (ws ++ [⟨c.sink, heartbeatFrame now, false⟩]) (cl ++ cls)

/-- Outer loop of the heartbeat tick: `for (const [clientId, set] of clients)`. -/
def hbOuter (closeThrows writeOk : Nat → Bool) (now : Nat) :
    List (String × List Conn) → Registry → Nat → List WriteEv → List Nat →
      Registry × Nat × List WriteEv × List Nat
  | [], reg, dead, ws, cl => (reg, dead, ws, cl)
  | (clientId, set) :: rest, reg, dead, ws, cl =>
    let (reg1, dead1, ws1, cl1) := hbLoop closeThrows writeOk now clientId set reg dead ws cl
    hbOuter closeThrows writeOk now rest reg1 dead1 ws1 cl1

/-- Embedding of `totalConnections()` (`sse.ts` lines 293–297): sum of the
connection-set sizes. -/
def totalConnections (reg : Registry) : Nat :=
  (reg.map (fun p => p.2.length)).sum

/-- Result of one heartbeat tick: registry after the tick, the dead-connection
counter, the probe-write trace, the closed sinks, and the summary log entry
(`deadConnections`, `activeConnections`) emitted iff the counter is nonzero. -/
structure TickOut where
  reg : Registry
  dead : Nat
  writes : List WriteEv
  closed : List Nat
  summary : Option (Nat × Nat)
deriving DecidableEq

/-- Embedding of one tick of the interval installed by `ensureHeartbeat`
(`sse.ts` lines 68–93): probe every connection of every client with the
heartbeat frame, then emit one summary log entry exactly when some connection
was evicted. -/
def heartbeatTick (closeThrows writeOk : Nat → Bool) (now : Nat) (reg : Registry) : TickOut :=
  let (reg1, dead, ws, cl) := hbOuter closeThrows writeOk now reg reg 0 [] []
  ⟨reg1, dead, ws, cl, if dead > 0 then some (dead, totalConnections reg1) else none⟩

/-- Executable model of `Math.round(x * 100) / 100`: JS `Math.round` rounds half
toward positive infinity, i.e. `⌊x + 1/2⌋`.  Numeric values are modelled in `ℚ`
(the registry only ever divides small exact integers). -/
def round2 (q : ℚ) : ℚ :=
  ((⌊q * 100 + 1 / 2⌋ : ℤ) : ℚ) / 100

/-- Metrics record returned by `getConnectionMetrics`. -/
structure ConnectionMetrics where
  totalConnections : Nat
  totalClients : Nat
  averageConnectionsPerClient : ℚ
deriving DecidableEq

/-- Embedding of `getConnectionMetrics()` (`sse.ts` lines 304–321). -/
def getConnectionMetrics (reg : Registry) : ConnectionMetrics :=
  let totalConnections : Nat := (reg.map (fun p => p.2.length)).sum
  let totalClients : Nat := reg.length
  let averageConnectionsPerClient : ℚ :=
    if totalClients > 0 then (totalConnections : ℚ) / (totalClients : ℚ) else 0
  ⟨totalConnections, totalClients, round2 averageConnectionsPerClient⟩

/-- Embedding of `getConnectedClients()` (`sse.ts` lines 328–330). -/
def getConnectedClients (reg : Registry) : List String :=
  reg.map (fun p => p.1)

/-- Embedding of `hasClientConnections(clientId)` (`sse.ts` lines 338–341). -/
def hasClientConnections (reg : Registry) (clientId : String) : Bool :=
  match lookupConns reg clientId with
  | some set => set.length != 0
  | none => false

/-- Entry of `getClientDetails()` for one client. -/
structure ClientDetail where
  id : String
  name : Option String
  connectionCount : Nat
  connectedAt : Nat
  lastSeen : Nat
deriving DecidableEq

/-- Model of `Math.max(...Array.from(clientSet).map((c) => c.lastSeen))` for the
(nonempty, by the guard in the source) connection set. -/
def maxLastSeen (set : List Conn) : Nat :=
  (set.map (fun c => c.lastSeen)).foldr max 0

/-- Unsorted details row for one map entry, or `none` for an empty set: body of
the loop in `getClientDetails` (`sse.ts` lines 372–386); `firstClient` is
`Array.from(clientSet)[0]`, the first-seen connection. -/
def clientDetailEntry (p : String × List Conn) : Option ClientDetail :=
  match p.2 with
  | [] => none
  | firstClient :: _ =>
    some ⟨p.1, firstClient.name, p.2.length, firstClient.connectedAt, maxLastSeen p.2⟩

/-- Embedding of `getClientDetails()` (`sse.ts` lines 357–389): one row per
client with a live connection, sorted by `connectedAt` descending via the stable
`details.sort((a, b) => b.connectedAt - a.connectedAt)`. -/
def getClientDetails (reg : Registry) : List ClientDetail :=
  (reg.filterMap clientDetailEntry).mergeSort
    (fun a b => decide (b.connectedAt ≤ a.connectedAt))

/-- Embedding of the `cancel()` handler installed by `createSSEStream(clientId,
name?)` (`sse.ts` lines 190–193): it calls `removeClient(clientId)` with no
controller argument. -/
def cancelSSEStream (closeThrows : Nat → Bool) (reg : Registry) (clientId : String) :
    Registry × List Nat :=
  removeClient closeThrows reg clientId none

/-- Per-iteration observations of `sendEvent`'s loop: before each visit of a
connection (and once after the loop) record the client's LIVE connection set —
the very collection `for (const c of set)` is iterating.  The step performed
between two observations is exactly the step of `sendLoop`. -/
def sendLoopLiveTrace (closeThrows writeOk : Nat → Bool) (now : Nat) (clientId chunk : String) :
    List Conn → Registry → List (Option (List Conn))
  | [], reg => [lookupConns reg clientId]
  | c :: rest, reg =>
    lookupConns reg clientId ::
      (if c ∈ (lookupConns reg clientId).getD [] then
        if writeOk c.sink then
          sendLoopLiveTrace closeThrows writeOk now clientId chunk rest (touch reg clientId c now)
        else
          sendLoopLiveTrace closeThrows writeOk now clientId chunk rest
            (removeClient closeThrows reg clientId (some c.sink)).1
      else
        sendLoopLiveTrace closeThrows writeOk now clientId chunk rest reg)

/-- Replacement connection record after `c.lastSeen = now`. -/
def touchConn (c : Conn) (now : Nat) : Conn :=
  ⟨c.id, c.name, c.sink, now, c.connectedAt⟩

/-- Registry shape after a sweep rewrote client `cid`'s set to `next`: entry
updated in place, or the key deleted when no connection survived. -/
def regAfter (reg : Registry) (cid : String) (next : List Conn) : Registry :=
  if next.isEmpty then mapDelete reg cid else mapSet reg cid next

/-- Entry transformation performed on one client by a full sweep with write
oracle `w`: failing connections are evicted, surviving ones get `lastSeen =
now`; the key disappears when nothing survives. -/
def sweepEntry (w : Nat → Bool) (now : Nat) (p : String × List Conn) :
    Option (String × List Conn) :=
  let next := (p.2.filter (fun c => w c.sink)).map (fun c => touchConn c now)
  if next.isEmpty then none else some (p.1, next)

/-- All connections of the registry, in iteration order. -/
def allConns (reg : Registry) : List Conn :=
  reg.flatMap (fun p => p.2)

/-- Invariant of §3 of the spec: every key present in the mapping has a
non-empty connection collection. -/
def NoEmptySets (reg : Registry) : Prop :=
  ∀ p ∈ reg, p.2 ≠ []

/-- Well-formedness delivered by the JS `Map`: keys are unique. -/
def KeysNodup (reg : Registry) : Prop :=
  (reg.map Prod.fst).Nodup

/-- Well-formedness delivered by controller freshness: within each client's
set, connections carry pairwise distinct sinks. -/
def SinksNodupPer (reg : Registry) : Prop :=
  ∀ p ∈ reg, (p.2.map Conn.sink).Nodup

theorem closeSwallow_eq (closeThrows : Nat → Bool) (s : Nat) :
    closeSwallow closeThrows s = [s] := by
  unfold closeSwallow closeSink
  by_cases h : closeThrows s = true <;> simp [h]

theorem lookupConns_mapSet_self (reg : Registry) (cid : String) (v : List Conn) :
    lookupConns (mapSet reg cid v) cid = some v := by
  induction reg with
  | nil => simp [mapSet, lookupConns]
  | cons p rest ih =>
    by_cases h : p.1 = cid
    · simp [mapSet, lookupConns, h]
    · simp [mapSet, lookupConns, h, ih]

theorem mapSet_self (reg : Registry) (cid : String) (v : List Conn)
    (h : lookupConns reg cid = some v) : mapSet reg cid v = reg := by
  induction reg with
  | nil => simp [lookupConns] at h
  | cons p rest ih =>
    obtain ⟨k, w⟩ := p
    by_cases hk : k = cid
    · subst hk
      simp [lookupConns] at h
      simp [mapSet, h]
    · simp only [lookupConns, if_neg hk] at h
      simp [mapSet, hk, ih h]

theorem mapSet_mapSet (reg : Registry) (cid : String) (v u : List Conn) :
    mapSet (mapSet reg cid v) cid u = mapSet reg cid u := by
  induction reg with
  | nil => simp [mapSet]
  | cons p rest ih =>
    by_cases h : p.1 = cid
    · simp [mapSet, h]
    · simp [mapSet, h, ih]

theorem mapDelete_mapSet (reg : Registry) (cid : String) (v : List Conn) :
    mapDelete (mapSet reg cid v) cid = mapDelete reg cid := by
  induction reg with
  | nil => simp [mapSet, mapDelete]
  | cons p rest ih =>
    by_cases h : p.1 = cid
    · simp [mapSet, mapDelete, h]
    · simp [mapSet, mapDelete, h, ih]

theorem lookupConns_append_notmem (l1 l2 : Registry) (cid : String)
    (h : cid ∉ l1.map Prod.fst) :
    lookupConns (l1 ++ l2) cid = lookupConns l2 cid := by
  induction l1 with
  | nil => simp
  | cons p rest ih =>
    simp only [List.map_cons, List.mem_cons] at h
    push_neg at h
    have hk : p.1 ≠ cid := fun hc => h.1 hc.symm
    simp [lookupConns, hk, ih h.2]

theorem mapSet_append_notmem (l1 l2 : Registry) (cid : String) (v u : List Conn)
    (h : cid ∉ l1.map Prod.fst) :
    mapSet (l1 ++ (cid, v) :: l2) cid u = l1 ++ (cid, u) :: l2 := by
  induction l1 with
  | nil => simp [mapSet]
  | cons p rest ih =>
    simp only [List.map_cons, List.mem_cons] at h
    push_neg at h
    have hk : p.1 ≠ cid := fun hc => h.1 hc.symm
    simp [mapSet, hk, ih h.2]

theorem mapDelete_append_notmem (l1 l2 : Registry) (cid : String) (v : List Conn)
    (h : cid ∉ l1.map Prod.fst) :
    mapDelete (l1 ++ (cid, v) :: l2) cid = l1 ++ l2 := by
  induction l1 with
  | nil => simp [mapDelete]
  | cons p rest ih =>
    simp only [List.map_cons, List.mem_cons] at h
    push_neg at h
    have hk : p.1 ≠ cid := fun hc => h.1 hc.symm
    simp [mapDelete, hk, ih h.2]

theorem lookupConns_mem (reg : Registry) (cid : String) (v : List Conn)
    (h : lookupConns reg cid = some v) : (cid, v) ∈ reg := by
  induction reg with
  | nil => simp [lookupConns] at h
  | cons p rest ih =>
    obtain ⟨k, w⟩ := p
    by_cases hk : k = cid
    · subst hk
      simp [lookupConns] at h
      subst h
      exact List.mem_cons_self _ _
    · simp only [lookupConns, if_neg hk] at h
      exact List.mem_cons_of_mem _ (ih h)

theorem mapDelete_sublist (reg : Registry) (cid : String) :
    (mapDelete reg cid).Sublist reg := by
  induction reg with
  | nil => simp [mapDelete]
  | cons p rest ih =>
    by_cases h : p.1 = cid
    · rw [mapDelete, if_pos h]
      exact List.sublist_cons_self p rest
    · rw [mapDelete, if_neg h]
      exact List.Sublist.cons₂ p ih

theorem removeFirstSink_append (pre suf : List Conn) (c : Conn)
    (h : c.sink ∉ pre.map Conn.sink) :
    removeFirstSink (pre ++ c :: suf) c.sink = some (pre ++ suf, c.sink) := by
  induction pre with
  | nil => simp [removeFirstSink]
  | cons x rest ih =>
    simp only [List.map_cons, List.mem_cons] at h
    push_neg at h
    have hx : x.sink ≠ c.sink := fun hc => h.1 hc.symm
    simp [removeFirstSink, hx, ih h.2]

theorem updateLastSeen_append (pre suf : List Conn) (c : Conn) (now : Nat)
    (h : c ∉ pre) :
    updateLastSeen (pre ++ c :: suf) c now = pre ++ touchConn c now :: suf := by
  induction pre with
  | nil => simp [updateLastSeen, touchConn]
  | cons x rest ih =>
    simp only [List.mem_cons] at h
    push_neg at h
    have hx : x ≠ c := fun hc => h.1 hc.symm
    simp [updateLastSeen, hx, ih h.2]

theorem updateLastSeen_length (set : List Conn) (c : Conn) (now : Nat) :
    (updateLastSeen set c now).length = set.length := by
  induction set with
  | nil => simp [updateLastSeen]
  | cons x rest ih =>
    by_cases hx : x = c
    · simp [updateLastSeen, hx]
    · simp [updateLastSeen, hx, ih]

theorem removeClient_absent (closeThrows : Nat → Bool) (reg : Registry) (cid : String)
    (ctrl : Option Nat) (h : lookupConns reg cid = none) :
    removeClient closeThrows reg cid ctrl = (reg, []) := by
  simp [removeClient, h]

theorem flatMap_closeSwallow (closeThrows : Nat → Bool) (set : List Conn) :
    set.flatMap (fun c => closeSwallow closeThrows c.sink) = set.map Conn.sink := by
  simp only [closeSwallow_eq]
  induction set with
  | nil => rfl
  | cons c rest ih => simp [List.flatMap_cons, ih]

theorem removeClient_none (closeThrows : Nat → Bool) (reg : Registry) (cid : String)
    (set : List Conn) (h : lookupConns reg cid = some set) :
    removeClient closeThrows reg cid none = (mapDelete reg cid, set.map Conn.sink) := by
  simp [removeClient, h, flatMap_closeSwallow]

theorem removeClient_split (closeThrows : Nat → Bool) (reg : Registry) (cid : String)
    (pre suf : List Conn) (c : Conn)
    (h : lookupConns reg cid = some (pre ++ c :: suf))
    (hp : c.sink ∉ pre.map Conn.sink) :
    removeClient closeThrows reg cid (some c.sink) =
      (if pre ++ suf = [] then mapDelete reg cid else mapSet reg cid (pre ++ suf),
       [c.sink]) := by
  simp [removeClient, h, removeFirstSink_append pre suf c hp, closeSwallow_eq,
    List.isEmpty_iff]
  split <;> rfl

theorem removeClient_closeThrows_irrel (ct1 ct2 : Nat → Bool) (reg : Registry)
    (cid : String) (ctrl : Option Nat) :
    removeClient ct1 reg cid ctrl = removeClient ct2 reg cid ctrl := by
  cases hl : lookupConns reg cid with
  | none => rw [removeClient_absent ct1 reg cid ctrl hl, removeClient_absent ct2 reg cid ctrl hl]
  | some set =>
    cases ctrl with
    | none => rw [removeClient_none ct1 reg cid set hl, removeClient_none ct2 reg cid set hl]
    | some c =>
      unfold removeClient
      rw [hl]
      cases hr : removeFirstSink set c with
      | none => simp [hr]
      | some p =>
        obtain ⟨cs, s⟩ := p
        simp [hr, closeSwallow_eq]

theorem touch_split (reg : Registry) (cid : String) (pre suf : List Conn) (c : Conn)
    (now : Nat) (h : lookupConns reg cid = some (pre ++ c :: suf)) (hp : c ∉ pre) :
    touch reg cid c now = mapSet reg cid (pre ++ touchConn c now :: suf) := by
  simp [touch, h, updateLastSeen_append pre suf c now hp]

theorem regAfter_mapSet (reg : Registry) (cid : String) (v next : List Conn) :
    regAfter (mapSet reg cid v) cid next = regAfter reg cid next := by
  unfold regAfter
  split <;> simp [mapDelete_mapSet, mapSet_mapSet]

/-- Connections of `set` surviving a sweep with write oracle `w` at time `now`:
the failing ones are evicted, the surviving ones get `lastSeen = now`. -/
def survivors (w : Nat → Bool) (now : Nat) (set : List Conn) : List Conn :=
  (set.filter (fun c => w c.sink)).map (fun c => touchConn c now)

/-- Write-attempt trace of a sweep over `set` offering frame `chunk`. -/
def attempts (w : Nat → Bool) (chunk : String) (set : List Conn) : List WriteEv :=
  set.map (fun c => ⟨c.sink, chunk, w c.sink⟩)

/-- Sinks closed by a sweep over `set`: exactly those whose write failed. -/
def evictedSinks (w : Nat → Bool) (set : List Conn) : List Nat :=
  (set.filter (fun c => !w c.sink)).map Conn.sink

theorem snapLoop_spec (ct w : Nat → Bool) (now : Nat) (cid chunk : String)
    (rest : List Conn) :
    ∀ (pre : List Conn) (reg : Registry) (cnt : Nat) (ws : List WriteEv) (cl : List Nat),
      lookupConns reg cid = some (pre ++ rest) →
      ((pre ++ rest).map Conn.sink).Nodup →
      pre ++ rest ≠ [] →
      snapLoop ct w now cid chunk rest reg cnt ws cl =
        (regAfter reg cid (pre ++ survivors w now rest),
         cnt + rest.countP (fun c => w c.sink),
         ws ++ attempts w chunk rest,
         cl ++ evictedSinks w rest) := by
  induction rest with
  | nil =>
    intro pre reg cnt ws cl h hnd hne
    rw [List.append_nil] at h hne
    have hie : pre.isEmpty = false := by
      cases pre with
      | nil => exact absurd rfl hne
      | cons a l => rfl
    simp [snapLoop, survivors, attempts, evictedSinks, regAfter, hie, mapSet_self reg cid pre h]
  | cons c rest ih =>
    intro pre reg cnt ws cl h hnd hne
    have hsp : c.sink ∉ pre.map Conn.sink := by
      rw [List.map_append] at hnd
      have hd := List.disjoint_of_nodup_append hnd
      intro hmem
      exact (List.disjoint_left.mp hd hmem) (by simp)
    cases hw : w c.sink with
    | true =>
      have hcp : c ∉ pre := fun hmem => hsp (List.mem_map_of_mem Conn.sink hmem)
      have ht := touch_split reg cid pre rest c now h hcp
      have h1 : lookupConns (mapSet reg cid (pre ++ touchConn c now :: rest)) cid =
          some ((pre ++ [touchConn c now]) ++ rest) := by
        rw [lookupConns_mapSet_self]
        simp
      have hmapeq : ((pre ++ [touchConn c now]) ++ rest).map Conn.sink =
          (pre ++ c :: rest).map Conn.sink := by
        simp [touchConn]
      have hnd1 : (((pre ++ [touchConn c now]) ++ rest).map Conn.sink).Nodup := by
        rw [hmapeq]; exact hnd
      have hne1 : (pre ++ [touchConn c now]) ++ rest ≠ [] := by simp
      have hstep := ih (pre ++ [touchConn c now])
        (mapSet reg cid (pre ++ touchConn c now :: rest))
        (cnt + 1) (ws ++ [⟨c.sink, chunk, true⟩]) cl h1 hnd1 hne1
      simp only [snapLoop, hw, if_true, ht]
      rw [hstep, regAfter_mapSet]
      simp [survivors, attempts, evictedSinks, List.filter_cons, List.countP_cons, hw]
      omega
    | false =>
      have hrc := removeClient_split ct reg cid pre rest c h hsp
      simp only [snapLoop, hw, Bool.false_eq_true, if_false, hrc]
      by_cases hpr : pre ++ rest = []
      · obtain ⟨hp, hr⟩ := List.append_eq_nil.mp hpr
        subst hp; subst hr
        simp [snapLoop, survivors, attempts, evictedSinks, regAfter, List.filter_cons,
          List.countP_cons, hw]
      · have h1 : lookupConns (mapSet reg cid (pre ++ rest)) cid = some (pre ++ rest) :=
          lookupConns_mapSet_self reg cid (pre ++ rest)
        have hsub : (pre ++ rest).Sublist (pre ++ c :: rest) :=
          (List.sublist_cons_self c rest).append_left pre
        have hnd1 : ((pre ++ rest).map Conn.sink).Nodup :=
          hnd.sublist (hsub.map Conn.sink)
        have hstep := ih pre (mapSet reg cid (pre ++ rest)) cnt
          (ws ++ [⟨c.sink, chunk, false⟩]) (cl ++ [c.sink]) h1 hnd1 hpr
        rw [if_neg hpr, hstep, regAfter_mapSet]
        simp [survivors, attempts, evictedSinks, List.filter_cons, List.countP_cons, hw]

theorem sendLoop_eq_snapLoop (ct w : Nat → Bool) (now : Nat) (cid chunk : String)
    (rest : List Conn) :
    ∀ (pre : List Conn) (reg : Registry) (cnt : Nat) (ws : List WriteEv) (cl : List Nat),
      lookupConns reg cid = some (pre ++ rest) →
      ((pre ++ rest).map Conn.sink).Nodup →
      sendLoop ct w now cid chunk rest reg cnt ws cl =
        snapLoop ct w now cid chunk rest reg cnt ws cl := by
  induction rest with
  | nil =>
    intro pre reg cnt ws cl h hnd
    simp [sendLoop, snapLoop]
  | cons c rest ih =>
    intro pre reg cnt ws cl h hnd
    have hmem : c ∈ (lookupConns reg cid).getD [] := by
      rw [h]
      simp
    have hsp : c.sink ∉ pre.map Conn.sink := by
      rw [List.map_append] at hnd
      have hd := List.disjoint_of_nodup_append hnd
      intro hmm
      exact (List.disjoint_left.mp hd hmm) (by simp)
    cases hw : w c.sink with
    | true =>
      have hcp : c ∉ pre := fun hmm => hsp (List.mem_map_of_mem Conn.sink hmm)
      have ht := touch_split reg cid pre rest c now h hcp
      have h1 : lookupConns (mapSet reg cid (pre ++ touchConn c now :: rest)) cid =
          some ((pre ++ [touchConn c now]) ++ rest) := by
        rw [lookupConns_mapSet_self]
        simp
      have hnd1 : (((pre ++ [touchConn c now]) ++ rest).map Conn.sink).Nodup := by
        have hmapeq : ((pre ++ [touchConn c now]) ++ rest).map Conn.sink =
            (pre ++ c :: rest).map Conn.sink := by simp [touchConn]
        rw [hmapeq]; exact hnd
      simp only [sendLoop, snapLoop, if_pos hmem, hw, if_true, ht]
      exact ih (pre ++ [touchConn c now]) _ (cnt + 1) _ cl h1 hnd1
    | false =>
      have hrc := removeClient_split ct reg cid pre rest c h hsp
      simp only [sendLoop, snapLoop, if_pos hmem, hw, Bool.false_eq_true, if_false, hrc]
      by_cases hpr : pre ++ rest = []
      · obtain ⟨hp, hr⟩ := List.append_eq_nil.mp hpr
        subst hp; subst hr
        simp [sendLoop, snapLoop]
      · have h1 : lookupConns (mapSet reg cid (pre ++ rest)) cid = some (pre ++ rest) :=
          lookupConns_mapSet_self reg cid (pre ++ rest)
        have hsub : (pre ++ rest).Sublist (pre ++ c :: rest) :=
          (List.sublist_cons_self c rest).append_left pre
        have hnd1 : ((pre ++ rest).map Conn.sink).Nodup :=
          hnd.sublist (hsub.map Conn.sink)
        rw [if_neg hpr]
        exact ih pre _ cnt _ _ h1 hnd1

theorem sendLoop_spec (ct w : Nat → Bool) (now : Nat) (cid chunk : String)
    (rest pre : List Conn) (reg : Registry) (cnt : Nat) (ws : List WriteEv) (cl : List Nat)
    (h : lookupConns reg cid = some (pre ++ rest))
    (hnd : ((pre ++ rest).map Conn.sink).Nodup)
    (hne : pre ++ rest ≠ []) :
    sendLoop ct w now cid chunk rest reg cnt ws cl =
      (regAfter reg cid (pre ++ survivors w now rest),
       cnt + rest.countP (fun c => w c.sink),
       ws ++ attempts w chunk rest,
       cl ++ evictedSinks w rest) := by
  rw [sendLoop_eq_snapLoop ct w now cid chunk rest pre reg cnt ws cl h hnd]
  exact snapLoop_spec ct w now cid chunk rest pre reg cnt ws cl h hnd hne

theorem hbLoop_spec (ct w : Nat → Bool) (now : Nat) (cid : String)
    (rest : List Conn) :
    ∀ (pre : List Conn) (reg : Registry) (dead : Nat) (ws : List WriteEv) (cl : List Nat),
      lookupConns reg cid = some (pre ++ rest) →
      ((pre ++ rest).map Conn.sink).Nodup →
      pre ++ rest ≠ [] →
      hbLoop ct w now cid rest reg dead ws cl =
        (regAfter reg cid (pre ++ survivors w now rest),
         dead + rest.countP (fun c => !w c.sink),
         ws ++ attempts w (heartbeatFrame now) rest,
         cl ++ evictedSinks w rest) := by
  induction rest with
  | nil =>
    intro pre reg dead ws cl h hnd hne
    rw [List.append_nil] at h hne
    have hie : pre.isEmpty = false := by
      cases pre with
      | nil => exact absurd rfl hne
      | cons a l => rfl
    simp [hbLoop, survivors, attempts, evictedSinks, regAfter, hie, mapSet_self reg cid pre h]
  | cons c rest ih =>
    intro pre reg dead ws cl h hnd hne
    have hsp : c.sink ∉ pre.map Conn.sink := by
      rw [List.map_append] at hnd
      have hd := List.disjoint_of_nodup_append hnd
      intro hmem
      exact (List.disjoint_left.mp hd hmem) (by simp)
    cases hw : w c.sink with
    | true =>
      have hcp : c ∉ pre := fun hmem => hsp (List.mem_map_of_mem Conn.sink hmem)
      have ht := touch_split reg cid pre rest c now h hcp
      have h1 : lookupConns (mapSet reg cid (pre ++ touchConn c now :: rest)) cid =
          some ((pre ++ [touchConn c now]) ++ rest) := by
        rw [lookupConns_mapSet_self]
        simp
      have hnd1 : (((pre ++ [touchConn c now]) ++ rest).map Conn.sink).Nodup := by
        have hmapeq : ((pre ++ [touchConn c now]) ++ rest).map Conn.sink =
            (pre ++ c :: rest).map Conn.sink := by simp [touchConn]
        rw [hmapeq]; exact hnd
      have hne1 : (pre ++ [touchConn c now]) ++ rest ≠ [] := by simp
      have hstep := ih (pre ++ [touchConn c now])
        (mapSet reg cid (pre ++ touchConn c now :: rest))
        dead (ws ++ [⟨c.sink, heartbeatFrame now, true⟩]) cl h1 hnd1 hne1
      simp only [hbLoop, hw, if_true, ht]
      rw [hstep, regAfter_mapSet]
      simp [survivors, attempts, evictedSinks, List.filter_cons, List.countP_cons, hw]
    | false =>
      have hrc := removeClient_split ct reg cid pre rest c h hsp
      simp only [hbLoop, hw, Bool.false_eq_true, if_false, hrc]
      by_cases hpr : pre ++ rest = []
      · obtain ⟨hp, hr⟩ := List.append_eq_nil.mp hpr
        subst hp; subst hr
        simp [hbLoop, survivors, attempts, evictedSinks, regAfter, List.filter_cons,
          List.countP_cons, hw]
      · have h1 : lookupConns (mapSet reg cid (pre ++ rest)) cid = some (pre ++ rest) :=
          lookupConns_mapSet_self reg cid (pre ++ rest)
        have hsub : (pre ++ rest).Sublist (pre ++ c :: rest) :=
          (List.sublist_cons_self c rest).append_left pre
        have hnd1 : ((pre ++ rest).map Conn.sink).Nodup :=
          hnd.sublist (hsub.map Conn.sink)
        have hstep := ih pre (mapSet reg cid (pre ++ rest)) (dead + 1)
          (ws ++ [⟨c.sink, heartbeatFrame now, false⟩]) (cl ++ [c.sink]) h1 hnd1 hpr
        rw [if_neg hpr, hstep, regAfter_mapSet]
        simp [survivors, attempts, evictedSinks, List.filter_cons, List.countP_cons, hw]
        omega

theorem snapLoop_cw (ct w : Nat → Bool) (now : Nat) (cid chunk : String)
    (rest : List Conn) :
    ∀ (reg : Registry) (cnt : Nat) (ws : List WriteEv) (cl : List Nat),
      (snapLoop ct w now cid chunk rest reg cnt ws cl).2.1 =
          cnt + rest.countP (fun c => w c.sink) ∧
        (snapLoop ct w now cid chunk rest reg cnt ws cl).2.2.1 =
          ws ++ attempts w chunk rest := by
  induction rest with
  | nil =>
    intro reg cnt ws cl
    simp [snapLoop, attempts]
  | cons c rest ih =>
    intro reg cnt ws cl
    cases hw : w c.sink with
    | true =>
      obtain ⟨ihc, ihw⟩ := ih (touch reg cid c now) (cnt + 1) (ws ++ [⟨c.sink, chunk, true⟩]) cl
      simp only [snapLoop, hw, if_true]
      refine ⟨?_, ?_⟩
      · rw [ihc]
        simp [List.countP_cons, hw]
        omega
      · rw [ihw]
        simp [attempts, hw]
    | false =>
      obtain ⟨ihc, ihw⟩ := ih (removeClient ct reg cid (some c.sink)).1 cnt
        (ws ++ [⟨c.sink, chunk, false⟩]) (cl ++ (removeClient ct reg cid (some c.sink)).2)
      simp only [snapLoop, hw, Bool.false_eq_true, if_false]
      refine ⟨?_, ?_⟩
      · rw [ihc]
        simp [List.countP_cons, hw]
      · rw [ihw]
        simp [attempts, hw]

theorem broadcastLoop_cw (ct w : Nat → Bool) (now : Nat) (chunk : String)
    (entries : List (String × List Conn)) :
    ∀ (reg : Registry) (tot : Nat) (ws : List WriteEv) (cl : List Nat),
      (broadcastLoop ct w now chunk entries reg tot ws cl).2.1 =
          tot + (entries.flatMap (fun p => p.2)).countP (fun c => w c.sink) ∧
        (broadcastLoop ct w now chunk entries reg tot ws cl).2.2.1 =
          ws ++ entries.flatMap (fun p => attempts w chunk p.2) := by
  induction entries with
  | nil =>
    intro reg tot ws cl
    simp [broadcastLoop]
  | cons p rest ih =>
    intro reg tot ws cl
    obtain ⟨cid, set⟩ := p
    rcases hsl : snapLoop ct w now cid chunk set reg 0 ws cl with ⟨r1, cs, w1, c1⟩
    have hc := snapLoop_cw ct w now cid chunk set reg 0 ws cl
    rw [hsl] at hc
    simp only at hc
    obtain ⟨hcs, hw1⟩ := hc
    simp only [broadcastLoop, hsl]
    obtain ⟨ihc, ihw⟩ := ih r1 (if cs > 0 then tot + cs else tot) w1 c1
    refine ⟨?_, ?_⟩
    · rw [ihc]
      simp [List.flatMap_cons, List.countP_append]
      have : (if cs > 0 then tot + cs else tot) = tot + cs := by
        split <;> omega
      rw [this, hcs]
      omega
    · rw [ihw, hw1]
      simp [List.flatMap_cons]

theorem lookupConns_cons_self (cid : String) (v : List Conn) (l : Registry) :
    lookupConns ((cid, v) :: l) cid = some v := by
  simp [lookupConns]

theorem sweepEntry_eq (w : Nat → Bool) (now : Nat) (p : String × List Conn) :
    sweepEntry w now p =
      if (survivors w now p.2).isEmpty then none else some (p.1, survivors w now p.2) := rfl

theorem broadcastLoop_full (ct w : Nat → Bool) (now : Nat) (chunk : String)
    (entries : List (String × List Conn)) :
    ∀ (done : Registry) (tot : Nat) (ws : List WriteEv) (cl : List Nat),
      ((done ++ entries).map Prod.fst).Nodup →
      (∀ p ∈ entries, (p.2.map Conn.sink).Nodup) →
      (∀ p ∈ entries, p.2 ≠ []) →
      broadcastLoop ct w now chunk entries (done ++ entries) tot ws cl =
        (done ++ entries.filterMap (sweepEntry w now),
         tot + (entries.flatMap (fun p => p.2)).countP (fun c => w c.sink),
         ws ++ entries.flatMap (fun p => attempts w chunk p.2),
         cl ++ entries.flatMap (fun p => evictedSinks w p.2)) := by
  induction entries with
  | nil =>
    intro done tot ws cl hk hs hne
    simp [broadcastLoop]
  | cons p rest ih =>
    intro done tot ws cl hk hs hne
    obtain ⟨cid, set⟩ := p
    have hcid : cid ∉ done.map Prod.fst := by
      rw [List.map_append] at hk
      have hd := List.disjoint_of_nodup_append hk
      intro hmm
      exact (List.disjoint_left.mp hd hmm) (by simp)
    have hlook : lookupConns (done ++ (cid, set) :: rest) cid = some set := by
      rw [lookupConns_append_notmem done _ cid hcid, lookupConns_cons_self]
    have hsnd : (set.map Conn.sink).Nodup := hs (cid, set) (by simp)
    have hsne : set ≠ [] := hne (cid, set) (by simp)
    have hspec := snapLoop_spec ct w now cid chunk set [] (done ++ (cid, set) :: rest)
      0 ws cl (by simpa using hlook) (by simpa using hsnd) (by simpa using hsne)
    simp only [broadcastLoop, hspec]
    by_cases hsur : survivors w now set = []
    · have hra : regAfter (done ++ (cid, set) :: rest) cid ([] ++ survivors w now set) =
          done ++ rest := by
        simp [regAfter, hsur, mapDelete_append_notmem done rest cid set hcid]
      have hkr : ((done ++ rest).map Prod.fst).Nodup := by
        have hsub : (done ++ rest).Sublist (done ++ (cid, set) :: rest) :=
          (List.sublist_cons_self (cid, set) rest).append_left done
        exact hk.sublist (hsub.map Prod.fst)
      have hstep := ih done (if 0 + set.countP (fun c => w c.sink) > 0
          then tot + (0 + set.countP (fun c => w c.sink)) else tot)
        (ws ++ attempts w chunk set) (cl ++ evictedSinks w set) hkr
        (fun q hq => hs q (List.mem_cons_of_mem _ hq))
        (fun q hq => hne q (List.mem_cons_of_mem _ hq))
      have hse : sweepEntry w now (cid, set) = none := by
        rw [sweepEntry_eq, hsur]
        rfl
      have htot : (if 0 + set.countP (fun c => w c.sink) > 0
          then tot + (0 + set.countP (fun c => w c.sink)) else tot) =
          tot + set.countP (fun c => w c.sink) := by
        split <;> omega
      rw [htot] at hstep
      rw [hra, htot, hstep]
      simp [List.filterMap_cons, hse, List.flatMap_cons, List.countP_append]
      omega
    · have hra : regAfter (done ++ (cid, set) :: rest) cid ([] ++ survivors w now set) =
          (done ++ [(cid, survivors w now set)]) ++ rest := by
        have : (survivors w now set).isEmpty = false := by
          cases hsv : survivors w now set with
          | nil => exact absurd hsv hsur
          | cons a l => rfl
        simp [regAfter, this, mapSet_append_notmem done rest cid set _ hcid]
      have hkr : (((done ++ [(cid, survivors w now set)]) ++ rest).map Prod.fst).Nodup := by
        have : ((done ++ [(cid, survivors w now set)]) ++ rest).map Prod.fst =
            (done ++ (cid, set) :: rest).map Prod.fst := by simp
        rw [this]
        exact hk
      have hstep := ih (done ++ [(cid, survivors w now set)])
        (if 0 + set.countP (fun c => w c.sink) > 0
          then tot + (0 + set.countP (fun c => w c.sink)) else tot)
        (ws ++ attempts w chunk set) (cl ++ evictedSinks w set) hkr
        (fun q hq => hs q (List.mem_cons_of_mem _ hq))
        (fun q hq => hne q (List.mem_cons_of_mem _ hq))
      have hse : sweepEntry w now (cid, set) = some (cid, survivors w now set) := by
        have hz : (survivors w now set).isEmpty = false := by
          cases hsv : survivors w now set with
          | nil => exact absurd hsv hsur
          | cons a l => rfl
        rw [sweepEntry_eq, hz]
        rfl
      have htot : (if 0 + set.countP (fun c => w c.sink) > 0
          then tot + (0 + set.countP (fun c => w c.sink)) else tot) =
          tot + set.countP (fun c => w c.sink) := by
        split <;> omega
      rw [htot] at hstep
      rw [hra, htot, hstep]
      simp [List.filterMap_cons, hse, List.flatMap_cons, List.countP_append]
      omega

theorem hbOuter_full (ct w : Nat → Bool) (now : Nat)
    (entries : List (String × List Conn)) :
    ∀ (done : Registry) (dead : Nat) (ws : List WriteEv) (cl : List Nat),
      ((done ++ entries).map Prod.fst).Nodup →
      (∀ p ∈ entries, (p.2.map Conn.sink).Nodup) →
      (∀ p ∈ entries, p.2 ≠ []) →
      hbOuter ct w now entries (done ++ entries) dead ws cl =
        (done ++ entries.filterMap (sweepEntry w now),
         dead + (entries.flatMap (fun p => p.2)).countP (fun c => !w c.sink),
         ws ++ entries.flatMap (fun p => attempts w (heartbeatFrame now) p.2),
         cl ++ entries.flatMap (fun p => evictedSinks w p.2)) := by
  induction entries with
  | nil =>
    intro done dead ws cl hk hs hne
    simp [hbOuter]
  | cons p rest ih =>
    intro done dead ws cl hk hs hne
    obtain ⟨cid, set⟩ := p
    have hcid : cid ∉ done.map Prod.fst := by
      rw [List.map_append] at hk
      have hd := List.disjoint_of_nodup_append hk
      intro hmm
      exact (List.disjoint_left.mp hd hmm) (by simp)
    have hlook : lookupConns (done ++ (cid, set) :: rest) cid = some set := by
      rw [lookupConns_append_notmem done _ cid hcid, lookupConns_cons_self]
    have hsnd : (set.map Conn.sink).Nodup := hs (cid, set) (by simp)
    have hsne : set ≠ [] := hne (cid, set) (by simp)
    have hspec := hbLoop_spec ct w now cid set [] (done ++ (cid, set) :: rest)
      dead ws cl (by simpa using hlook) (by simpa using hsnd) (by simpa using hsne)
    simp only [hbOuter, hspec]
    by_cases hsur : survivors w now set = []
    · have hra : regAfter (done ++ (cid, set) :: rest) cid ([] ++ survivors w now set) =
          done ++ rest := by
        simp [regAfter, hsur, mapDelete_append_notmem done rest cid set hcid]
      have hkr : ((done ++ rest).map Prod.fst).Nodup := by
        have hsub : (done ++ rest).Sublist (done ++ (cid, set) :: rest) :=
          (List.sublist_cons_self (cid, set) rest).append_left done
        exact hk.sublist (hsub.map Prod.fst)
      have hstep := ih done (dead + set.countP (fun c => !w c.sink))
        (ws ++ attempts w (heartbeatFrame now) set) (cl ++ evictedSinks w set) hkr
        (fun q hq => hs q (List.mem_cons_of_mem _ hq))
        (fun q hq => hne q (List.mem_cons_of_mem _ hq))
      have hse : sweepEntry w now (cid, set) = none := by
        rw [sweepEntry_eq, hsur]
        rfl
      rw [hra, hstep]
      simp [List.filterMap_cons, hse, List.flatMap_cons, List.countP_append]
      omega
    · have hz : (survivors w now set).isEmpty = false := by
        cases hsv : survivors w now set with
        | nil => exact absurd hsv hsur
        | cons a l => rfl
      have hra : regAfter (done ++ (cid, set) :: rest) cid ([] ++ survivors w now set) =
          (done ++ [(cid, survivors w now set)]) ++ rest := by
        simp [regAfter, hz, mapSet_append_notmem done rest cid set _ hcid]
      have hkr : (((done ++ [(cid, survivors w now set)]) ++ rest).map Prod.fst).Nodup := by
        have heq : ((done ++ [(cid, survivors w now set)]) ++ rest).map Prod.fst =
            (done ++ (cid, set) :: rest).map Prod.fst := by simp
        rw [heq]
        exact hk
      have hstep := ih (done ++ [(cid, survivors w now set)])
        (dead + set.countP (fun c => !w c.sink))
        (ws ++ attempts w (heartbeatFrame now) set) (cl ++ evictedSinks w set) hkr
        (fun q hq => hs q (List.mem_cons_of_mem _ hq))
        (fun q hq => hne q (List.mem_cons_of_mem _ hq))
      have hse : sweepEntry w now (cid, set) = some (cid, survivors w now set) := by
        rw [sweepEntry_eq, hz]
        rfl
      rw [hra, hstep]
      simp [List.filterMap_cons, hse, List.flatMap_cons, List.countP_append]
      omega

theorem NoEmptySets_mapSet (reg : Registry) (cid : String) (v : List Conn)
    (h : NoEmptySets reg) (hv : v ≠ []) : NoEmptySets (mapSet reg cid v) := by
  induction reg with
  | nil =>
    intro p hp
    simp [mapSet] at hp
    rw [hp]
    exact hv
  | cons q rest ih =>
    intro p hp
    by_cases hk : q.1 = cid
    · simp [mapSet, hk] at hp
      rcases hp with hp | hp
      · rw [hp]
        exact hv
      · exact h p (List.mem_cons_of_mem _ hp)
    · simp [mapSet, hk] at hp
      rcases hp with hp | hp
      · rw [hp]
        exact h q (by simp)
      · exact ih (fun r hr => h r (List.mem_cons_of_mem _ hr)) p hp

theorem NoEmptySets_mapDelete (reg : Registry) (cid : String)
    (h : NoEmptySets reg) : NoEmptySets (mapDelete reg cid) :=
  fun p hp => h p ((mapDelete_sublist reg cid).mem hp)

theorem NoEmptySets_removeClient (ct : Nat → Bool) (reg : Registry) (cid : String)
    (ctrl : Option Nat) (h : NoEmptySets reg) :
    NoEmptySets (removeClient ct reg cid ctrl).1 := by
  unfold removeClient
  cases hl : lookupConns reg cid with
  | none => exact h
  | some set =>
    cases ctrl with
    | none => exact NoEmptySets_mapDelete reg cid h
    | some c =>
      cases hr : removeFirstSink set c with
      | none =>
        simp only [hr]
        by_cases he : set.isEmpty = true
        · rw [if_pos he]
          exact NoEmptySets_mapDelete reg cid h
        · rw [if_neg he]
          refine NoEmptySets_mapSet reg cid set h ?_
          intro hc
          apply he
          rw [hc]
          rfl
      | some p =>
        obtain ⟨cs, s⟩ := p
        simp only [hr]
        by_cases he : cs.isEmpty = true
        · rw [if_pos he]
          exact NoEmptySets_mapDelete reg cid h
        · rw [if_neg he]
          refine NoEmptySets_mapSet reg cid cs h ?_
          intro hc
          apply he
          rw [hc]
          rfl

theorem NoEmptySets_touch (reg : Registry) (cid : String) (c : Conn) (now : Nat)
    (h : NoEmptySets reg) : NoEmptySets (touch reg cid c now) := by
  unfold touch
  cases hl : lookupConns reg cid with
  | none => exact h
  | some live =>
    have hlive : live ≠ [] := h (cid, live) (lookupConns_mem reg cid live hl)
    refine NoEmptySets_mapSet reg cid _ h ?_
    intro hc
    apply hlive
    have := updateLastSeen_length live c now
    rw [hc] at this
    exact List.length_eq_zero.mp this.symm

theorem NoEmptySets_addClient (reg : Registry) (cid : String) (sink : Nat)
    (name : Option String) (now : Nat) (h : NoEmptySets reg) :
    NoEmptySets (addClient reg cid sink name now).1 := by
  unfold addClient
  cases hl : lookupConns reg cid with
  | none =>
    simp only [hl, Option.isNone_none, if_true]
    rw [lookupConns_mapSet_self]
    simp only [Option.getD_some, List.nil_append]
    rw [mapSet_mapSet]
    exact NoEmptySets_mapSet reg cid _ h (by simp)
  | some set =>
    simp only [hl, Option.isNone_some, Bool.false_eq_true, if_false, Option.getD_some]
    exact NoEmptySets_mapSet reg cid _ h (by simp)

theorem NoEmptySets_snapLoop (ct w : Nat → Bool) (now : Nat) (cid chunk : String)
    (rest : List Conn) :
    ∀ (reg : Registry) (cnt : Nat) (ws : List WriteEv) (cl : List Nat),
      NoEmptySets reg → NoEmptySets (snapLoop ct w now cid chunk rest reg cnt ws cl).1 := by
  induction rest with
  | nil =>
    intro reg cnt ws cl h
    simpa [snapLoop] using h
  | cons c rest ih =>
    intro reg cnt ws cl h
    cases hw : w c.sink with
    | true =>
      simp only [snapLoop, hw, if_true]
      exact ih _ _ _ _ (NoEmptySets_touch reg cid c now h)
    | false =>
      simp only [snapLoop, hw, Bool.false_eq_true, if_false]
      exact ih _ _ _ _ (NoEmptySets_removeClient ct reg cid (some c.sink) h)

theorem NoEmptySets_sendLoop (ct w : Nat → Bool) (now : Nat) (cid chunk : String)
    (rest : List Conn) :
    ∀ (reg : Registry) (cnt : Nat) (ws : List WriteEv) (cl : List Nat),
      NoEmptySets reg → NoEmptySets (sendLoop ct w now cid chunk rest reg cnt ws cl).1 := by
  induction rest with
  | nil =>
    intro reg cnt ws cl h
    simpa [sendLoop] using h
  | cons c rest ih =>
    intro reg cnt ws cl h
    by_cases hm : c ∈ (lookupConns reg cid).getD []
    · cases hw : w c.sink with
      | true =>
        simp only [sendLoop, if_pos hm, hw, if_true]
        exact ih _ _ _ _ (NoEmptySets_touch reg cid c now h)
      | false =>
        simp only [sendLoop, if_pos hm, hw, Bool.false_eq_true, if_false]
        exact ih _ _ _ _ (NoEmptySets_removeClient ct reg cid (some c.sink) h)
    · simp only [sendLoop, if_neg hm]
      exact ih _ _ _ _ h

theorem NoEmptySets_hbLoop (ct w : Nat → Bool) (now : Nat) (cid : String)
    (rest : List Conn) :
    ∀ (reg : Registry) (dead : Nat) (ws : List WriteEv) (cl : List Nat),
      NoEmptySets reg → NoEmptySets (hbLoop ct w now cid rest reg dead ws cl).1 := by
  induction rest with
  | nil =>
    intro reg dead ws cl h
    simpa [hbLoop] using h
  | cons c rest ih =>
    intro reg dead ws cl h
    cases hw : w c.sink with
    | true =>
      simp only [hbLoop, hw, if_true]
      exact ih _ _ _ _ (NoEmptySets_touch reg cid c now h)
    | false =>
      simp only [hbLoop, hw, Bool.false_eq_true, if_false]
      exact ih _ _ _ _ (NoEmptySets_removeClient ct reg cid (some c.sink) h)

theorem NoEmptySets_sendEvent (ct w : Nat → Bool) (now : Nat) (reg : Registry)
    (cid en pl : String) (h : NoEmptySets reg) :
    NoEmptySets (sendEvent ct w now reg cid en pl).reg := by
  unfold sendEvent
  cases hl : lookupConns reg cid with
  | none => exact h
  | some set =>
    by_cases he : set.isEmpty
    · simp only [he, if_true]
      exact h
    · simp only [he, Bool.false_eq_true, if_false]
      rcases hsl : sendLoop ct w now cid (frame en pl) set reg 0 [] [] with ⟨r1, cnt, ws, cl⟩
      have := NoEmptySets_sendLoop ct w now cid (frame en pl) set reg 0 [] [] h
      rw [hsl] at this
      exact this

theorem NoEmptySets_broadcastLoop (ct w : Nat → Bool) (now : Nat) (chunk : String)
    (entries : List (String × List Conn)) :
    ∀ (reg : Registry) (tot : Nat) (ws : List WriteEv) (cl : List Nat),
      NoEmptySets reg →
      NoEmptySets (broadcastLoop ct w now chunk entries reg tot ws cl).1 := by
  induction entries with
  | nil =>
    intro reg tot ws cl h
    simpa [broadcastLoop] using h
  | cons p rest ih =>
    intro reg tot ws cl h
    obtain ⟨cid, set⟩ := p
    rcases hsl : snapLoop ct w now cid chunk set reg 0 ws cl with ⟨r1, cs, w1, c1⟩
    simp only [broadcastLoop, hsl]
    have hr1 := NoEmptySets_snapLoop ct w now cid chunk set reg 0 ws cl h
    rw [hsl] at hr1
    exact ih r1 _ w1 c1 hr1

theorem NoEmptySets_broadcast (ct w : Nat → Bool) (now : Nat) (reg : Registry)
    (en pl : String) (h : NoEmptySets reg) :
    NoEmptySets (broadcast ct w now reg en pl).2.1 := by
  have h2 := NoEmptySets_broadcastLoop ct w now (frame en pl) reg reg 0 [] [] h
  rcases hbl : broadcastLoop ct w now (frame en pl) reg reg 0 [] [] with ⟨r1, tot, ws, cl⟩
  rw [hbl] at h2
  simp only [broadcast, hbl]
  exact h2

theorem NoEmptySets_hbOuter (ct w : Nat → Bool) (now : Nat)
    (entries : List (String × List Conn)) :
    ∀ (reg : Registry) (dead : Nat) (ws : List WriteEv) (cl : List Nat),
      NoEmptySets reg →
      NoEmptySets (hbOuter ct w now entries reg dead ws cl).1 := by
  induction entries with
  | nil =>
    intro reg dead ws cl h
    simpa [hbOuter] using h
  | cons p rest ih =>
    intro reg dead ws cl h
    obtain ⟨cid, set⟩ := p
    rcases hsl : hbLoop ct w now cid set reg dead ws cl with ⟨r1, d1, w1, c1⟩
    simp only [hbOuter, hsl]
    have hr1 := NoEmptySets_hbLoop ct w now cid set reg dead ws cl h
    rw [hsl] at hr1
    exact ih r1 d1 w1 c1 hr1

theorem NoEmptySets_heartbeatTick (ct w : Nat → Bool) (now : Nat) (reg : Registry)
    (h : NoEmptySets reg) : NoEmptySets (heartbeatTick ct w now reg).reg := by
  have h2 := NoEmptySets_hbOuter ct w now reg reg 0 [] [] h
  rcases hto : hbOuter ct w now reg reg 0 [] [] with ⟨r1, d1, w1, c1⟩
  rw [hto] at h2
  simp only [heartbeatTick, hto]
  exact h2

theorem lookupConns_eq_none (reg : Registry) (cid : String)
    (h : cid ∉ reg.map Prod.fst) : lookupConns reg cid = none := by
  induction reg with
  | nil => rfl
  | cons p rest ih =>
    simp only [List.map_cons, List.mem_cons] at h
    push_neg at h
    have hk : p.1 ≠ cid := fun hc => h.1 hc.symm
    simp [lookupConns, hk, ih h.2]

theorem lookupConns_mapDelete_self (reg : Registry) (cid : String)
    (h : KeysNodup reg) : lookupConns (mapDelete reg cid) cid = none := by
  induction reg with
  | nil => rfl
  | cons p rest ih =>
    unfold KeysNodup at h
    simp only [List.map_cons, List.nodup_cons] at h
    by_cases hk : p.1 = cid
    · rw [mapDelete, if_pos hk]
      refine lookupConns_eq_none rest cid ?_
      rw [← hk]
      exact h.1
    · rw [mapDelete, if_neg hk]
      simp [lookupConns, hk, ih h.2]

theorem maxLastSeen_ge (set : List Conn) :
    ∀ c ∈ set, c.lastSeen ≤ maxLastSeen set := by
  induction set with
  | nil => intro c hc; simp at hc
  | cons x rest ih =>
    intro c hc
    rcases List.mem_cons.mp hc with hc | hc
    · rw [hc]
      simp [maxLastSeen]
    · calc c.lastSeen ≤ maxLastSeen rest := ih c hc
        _ ≤ maxLastSeen (x :: rest) := by simp [maxLastSeen]

theorem maxLastSeen_mem (set : List Conn) (h : set ≠ []) :
    ∃ c ∈ set, c.lastSeen = maxLastSeen set := by
  induction set with
  | nil => exact absurd rfl h
  | cons x rest ih =>
    cases hr : rest with
    | nil =>
      refine ⟨x, by simp, ?_⟩
      simp [maxLastSeen]
    | cons y l =>
      rw [← hr]
      obtain ⟨c, hc, hcm⟩ := ih (by rw [hr]; simp)
      rcases Nat.le_total (maxLastSeen rest) x.lastSeen with hle | hle
      · refine ⟨x, by simp, ?_⟩
        have : maxLastSeen (x :: rest) = max x.lastSeen (maxLastSeen rest) := by
          simp [maxLastSeen]
        rw [this, Nat.max_eq_left hle]
      · refine ⟨c, List.mem_cons_of_mem _ hc, ?_⟩
        have : maxLastSeen (x :: rest) = max x.lastSeen (maxLastSeen rest) := by
          simp [maxLastSeen]
        rw [this, Nat.max_eq_right hle, hcm]

theorem round2_zero : round2 0 = 0 := by
  unfold round2
  have hf : ⌊(0 : ℚ) * 100 + 1 / 2⌋ = 0 := by
    rw [Int.floor_eq_zero_iff]
    constructor <;> norm_num
  rw [hf]
  norm_num

/-- Concrete oracle: `close()` never throws. -/
def ctNone : Nat → Bool := fun _ => false

/-- Concrete oracle: `enqueue` succeeds exactly on sink 2. -/
def wOk2 : Nat → Bool := fun s => s == 2

/-- Concrete oracle: `enqueue` fails exactly on sink 1. -/
def wNot1 : Nat → Bool := fun s => s != 1

/-- Fixture connection: client `"a"`, sink 1. -/
def cA1 : Conn := ⟨"a", none, 1, 0, 0⟩

/-- Fixture connection: client `"a"`, sink 2. -/
def cA2 : Conn := ⟨"a", none, 2, 0, 0⟩

/-- Fixture connection: client `"b"`, sink 3. -/
def cB3 : Conn := ⟨"b", some "B", 3, 0, 0⟩

/-- Fixture registry: one client with two connections. -/
def regA : Registry := [("a", [cA1, cA2])]

/-- Fixture registry: client `"a"` with two connections, client `"b"` with one. -/
def regAB : Registry := [("a", [cA1, cA2]), ("b", [cB3])]

/-- C1: for every registry state, event name and payload, `broadcast` makes
exactly one write attempt per connection of every registered client, each
attempt offering the identical frame `frame eventName payload` (built from the
same event name and the same JSON-serialized payload), and it returns the
number of connections for which the write succeeded — not the number of
clients. -/
theorem broadcast_identical_frame_count_is_connections
    (ct w : Nat → Bool) (now : Nat) (reg : Registry) (eventName payload : String) :
    (broadcast ct w now reg eventName payload).2.2.1 =
        reg.flatMap (fun p => attempts w (frame eventName payload) p.2) ∧
      (broadcast ct w now reg eventName payload).1 =
        (allConns reg).countP (fun c => w c.sink) := by
  have h := broadcastLoop_cw ct w now (frame eventName payload) reg reg 0 [] []
  rcases hbl : broadcastLoop ct w now (frame eventName payload) reg reg 0 [] [] with
    ⟨r1, tot, ws, cl⟩
  rw [hbl] at h
  simp only at h
  simp only [broadcast, hbl]
  exact ⟨h.2, by rw [h.1]; simp [allConns]⟩

/-- C2: `sendEvent` is a total function (it never raises); when the target
client has no registered connections (key absent or set empty) it returns
`false` and leaves the registry, the write trace and the closed-sink trace
empty/unchanged; otherwise it returns `true` iff at least one connection's
write succeeded. -/
theorem sendEvent_offline_false_and_success_iff
    (ct w : Nat → Bool) (now : Nat) (reg : Registry) (cid en pl : String) :
    (lookupConns reg cid = none →
        sendEvent ct w now reg cid en pl = ⟨false, reg, [], []⟩) ∧
      (lookupConns reg cid = some [] →
        sendEvent ct w now reg cid en pl = ⟨false, reg, [], []⟩) ∧
      (∀ set, lookupConns reg cid = some set → (set.map Conn.sink).Nodup →
        ((sendEvent ct w now reg cid en pl).ok = true ↔ ∃ c ∈ set, w c.sink = true)) := by
  refine ⟨?_, ?_, ?_⟩
  · intro h
    simp [sendEvent, h]
  · intro h
    simp [sendEvent, h]
  · intro set hl hnd
    cases hset : set with
    | nil =>
      rw [hset] at hl
      simp [sendEvent, hl]
    | cons c0 rest0 =>
      rw [← hset]
      have hne : set ≠ [] := by rw [hset]; simp
      have hie : set.isEmpty = false := by
        rw [hset]; rfl
      have hspec := sendLoop_spec ct w now cid (frame en pl) set [] reg 0 [] []
        (by simpa using hl) (by simpa using hnd) (by simpa using hne)
      simp only [sendEvent, hl, hie, Bool.false_eq_true, if_false, hspec]
      simp only [List.nil_append, Nat.zero_add]
      constructor
      · intro hok
        have : set.countP (fun c => w c.sink) ≠ 0 := by
          simpa using hok
        obtain ⟨c, hc, hcw⟩ := List.countP_pos_iff.mp (Nat.pos_of_ne_zero this)
        exact ⟨c, hc, hcw⟩
      · intro ⟨c, hc, hcw⟩
        have : 0 < set.countP (fun c => w c.sink) := List.countP_pos_iff.mpr ⟨c, hc, hcw⟩
        simpa using Nat.pos_iff_ne_zero.mp this

/-- C2 witness: at a concrete registry where client `"a"` has a failing and a
succeeding connection, `sendEvent` reports success. -/
theorem sendEvent_offline_false_and_success_iff_witness :
    (sendEvent ctNone wOk2 5 regA "a" "evt" "p").ok = true :=
  ((sendEvent_offline_false_and_success_iff ctNone wOk2 5 regA "a" "evt" "p").2.2
    [cA1, cA2] (by decide) (by decide)).mpr ⟨cA2, by decide, by decide⟩

/-- C3: in every `sendEvent` sweep, a failing write evicts exactly that
connection — the client's set afterwards is exactly its surviving connections
(with refreshed `lastSeen`), with the key dropped only when nothing survives —
the failing connection's sink is closed, and delivery to the remaining
connections is not aborted (every connection of the sweep-start set gets its
write attempt); and in every `broadcast` sweep the same holds per client: the
final registry is the entry-wise sweep transformation and the closed sinks are
exactly the failing ones, other clients being unaffected. -/
theorem failing_write_evicts_only_that_connection
    (ct w : Nat → Bool) (now : Nat) (reg : Registry) (cid en pl : String) :
    (∀ set, lookupConns reg cid = some set → (set.map Conn.sink).Nodup → set ≠ [] →
        sendEvent ct w now reg cid en pl =
          ⟨set.countP (fun c => w c.sink) != 0,
           regAfter reg cid (survivors w now set),
           attempts w (frame en pl) set,
           evictedSinks w set⟩) ∧
      (KeysNodup reg → SinksNodupPer reg → NoEmptySets reg →
        (broadcast ct w now reg en pl).2.1 = reg.filterMap (sweepEntry w now) ∧
          (broadcast ct w now reg en pl).2.2.2 =
            reg.flatMap (fun p => evictedSinks w p.2)) := by
  constructor
  · intro set hl hnd hne
    have hie : set.isEmpty = false := by
      cases set with
      | nil => exact absurd rfl hne
      | cons a l => rfl
    have hspec := sendLoop_spec ct w now cid (frame en pl) set [] reg 0 [] []
      (by simpa using hl) (by simpa using hnd) (by simpa using hne)
    simp only [sendEvent, hl, hie, Bool.false_eq_true, if_false, hspec]
    simp
  · intro hk hs hne
    have hfull := broadcastLoop_full ct w now (frame en pl) reg [] 0 [] []
      (by simpa using hk) (fun p hp => hs p hp) (fun p hp => hne p hp)
    rcases hbl : broadcastLoop ct w now (frame en pl) reg reg 0 [] [] with ⟨r1, tot, ws, cl⟩
    rw [show (([] : Registry) ++ reg) = reg from rfl, hbl] at hfull
    simp only [broadcast, hbl]
    simp only [Prod.mk.injEq] at hfull
    exact ⟨by simp [hfull.1], by simp [hfull.2.2.2]⟩

/-- C3 witness: client `"a"` holds two connections; the write on sink 1 fails
and the one on sink 2 succeeds, so the client stays registered with exactly the
surviving connection (its `lastSeen` refreshed), sink 1 is closed, and both
connections got their write attempt. -/
theorem failing_write_evicts_only_that_connection_witness :
    sendEvent ctNone wOk2 5 regA "a" "evt" "p" =
      ⟨[cA1, cA2].countP (fun c => wOk2 c.sink) != 0,
       regAfter regA "a" (survivors wOk2 5 [cA1, cA2]),
       attempts wOk2 (frame "evt" "p") [cA1, cA2],
       evictedSinks wOk2 [cA1, cA2]⟩ ∧
    regAfter regA "a" (survivors wOk2 5 [cA1, cA2]) = [("a", [⟨"a", none, 2, 5, 0⟩])] :=
  ⟨(failing_write_evicts_only_that_connection ctNone wOk2 5 regA "a" "evt" "p").1
    [cA1, cA2] (by decide) (by decide) (by decide), by decide⟩

/-- C4: every registry operation — `addClient`, `removeClient` (with or without
a controller), `sendEvent`, `broadcast`, and the heartbeat tick — preserves the
invariant that every key present in the mapping has a non-empty connection set
(`NoEmptySets`): a key is deleted exactly when its last connection is removed,
so no empty-set entry ever persists. -/
theorem registry_operations_preserve_no_empty_sets
    (ct w : Nat → Bool) (now : Nat) (reg : Registry) (cid en pl : String) (sink : Nat)
    (name : Option String) (ctrl : Option Nat) (h : NoEmptySets reg) :
    NoEmptySets (addClient reg cid sink name now).1 ∧
      NoEmptySets (removeClient ct reg cid ctrl).1 ∧
      NoEmptySets (sendEvent ct w now reg cid en pl).reg ∧
      NoEmptySets (broadcast ct w now reg en pl).2.1 ∧
      NoEmptySets (heartbeatTick ct w now reg).reg :=
  ⟨NoEmptySets_addClient reg cid sink name now h,
   NoEmptySets_removeClient ct reg cid ctrl h,
   NoEmptySets_sendEvent ct w now reg cid en pl h,
   NoEmptySets_broadcast ct w now reg en pl h,
   NoEmptySets_heartbeatTick ct w now reg h⟩

/-- C4 witness: the invariant is preserved at a concrete two-client registry
(the heartbeat tick evicting sink 1, removal targeting sink 2). -/
theorem registry_operations_preserve_no_empty_sets_witness :
    NoEmptySets (addClient regAB "a" 7 none 9).1 ∧
      NoEmptySets (removeClient ctNone regAB "a" (some 2)).1 ∧
      NoEmptySets (sendEvent ctNone wNot1 9 regAB "a" "evt" "p").reg ∧
      NoEmptySets (broadcast ctNone wNot1 9 regAB "evt" "p").2.1 ∧
      NoEmptySets (heartbeatTick ctNone wNot1 9 regAB).reg :=
  registry_operations_preserve_no_empty_sets ctNone wNot1 9 regAB "a" "evt" "p" 7 none
    (some 2) (by unfold NoEmptySets; decide)

/-- C5: `removeClient` with the sink omitted closes every sink of the client
and deletes the key (so the id no longer resolves, given unique map keys); with
a sink it removes only the matching connection, closing exactly that sink, and
deletes the key only if the set becomes empty; an unknown `clientId` is a
no-op; and the outcome is independent of whether closing a sink throws — close
failures are swallowed, never propagated. -/
theorem removeClient_spec
    (ct ct2 : Nat → Bool) (reg : Registry) (cid : String) (set pre suf : List Conn)
    (c : Conn) (ctrl : Option Nat) :
    (lookupConns reg cid = some set →
        removeClient ct reg cid none = (mapDelete reg cid, set.map Conn.sink)) ∧
      (lookupConns reg cid = none → removeClient ct reg cid ctrl = (reg, [])) ∧
      (lookupConns reg cid = some (pre ++ c :: suf) → c.sink ∉ pre.map Conn.sink →
        removeClient ct reg cid (some c.sink) =
          (if pre ++ suf = [] then mapDelete reg cid else mapSet reg cid (pre ++ suf),
           [c.sink])) ∧
      (KeysNodup reg → lookupConns (removeClient ct reg cid none).1 cid = none) ∧
      removeClient ct reg cid ctrl = removeClient ct2 reg cid ctrl := by
  refine ⟨?_, ?_, ?_, ?_, ?_⟩
  · intro h
    exact removeClient_none ct reg cid set h
  · intro h
    exact removeClient_absent ct reg cid ctrl h
  · intro h hp
    exact removeClient_split ct reg cid pre suf c h hp
  · intro hk
    cases hl : lookupConns reg cid with
    | none =>
      rw [removeClient_absent ct reg cid none hl]
      exact hl
    | some s0 =>
      rw [removeClient_none ct reg cid s0 hl]
      exact lookupConns_mapDelete_self reg cid hk
  · exact removeClient_closeThrows_irrel ct ct2 reg cid ctrl

/-- C5 witness: on the two-client fixture, full teardown of `"a"` closes sinks
1 and 2 and leaves only `"b"`; removing only sink 1 keeps `"a"` registered with
sink 2; removing `"b"`'s last connection deletes the `"b"` key; an unknown id
is a no-op; and a throwing `close()` changes nothing. -/
theorem removeClient_spec_witness :
    removeClient ctNone regAB "a" none = (mapDelete regAB "a", [cA1, cA2].map Conn.sink) ∧
      removeClient ctNone regAB "zzz" (some 1) = (regAB, []) ∧
      removeClient ctNone regAB "a" (some 1) =
        (if [] ++ [cA2] = ([] : List Conn) then mapDelete regAB "a"
          else mapSet regAB "a" ([] ++ [cA2]), [1]) ∧
      lookupConns (removeClient ctNone regAB "a" none).1 "a" = none ∧
      removeClient ctNone regAB "a" (some 1) =
        removeClient (fun _ => true) regAB "a" (some 1) :=
  ⟨(removeClient_spec ctNone ctNone regAB "a" [cA1, cA2] [] [cA2] cA1 none).1 (by decide),
   (removeClient_spec ctNone ctNone regAB "zzz" [] [] [] cA1 (some 1)).2.1 (by decide),
   (removeClient_spec ctNone ctNone regAB "a" [] [] [cA2] cA1 (some 1)).2.2.1
     (by decide) (by decide),
   (removeClient_spec ctNone ctNone regAB "a" [] [] [] cA1 none).2.2.2.1
     (by unfold KeysNodup; decide),
   (removeClient_spec ctNone (fun _ => true) regAB "a" [] [] [] cA1 (some 1)).2.2.2.2⟩

/-- C10: the `cancel()` handler of a stream created by
`createSSEStream(clientId)` calls `removeClient(clientId)` with no controller
argument, so cancelling any one of the client's streams removes and closes ALL
connections registered under that `clientId` — not only the cancelled stream's
connection — and the key is gone afterwards. -/
theorem cancelSSEStream_removes_all_connections
    (ct : Nat → Bool) (reg : Registry) (cid : String) (set : List Conn)
    (h : lookupConns reg cid = some set) (hk : KeysNodup reg) :
    cancelSSEStream ct reg cid = (mapDelete reg cid, set.map Conn.sink) ∧
      lookupConns (cancelSSEStream ct reg cid).1 cid = none := by
  unfold cancelSSEStream
  refine ⟨removeClient_none ct reg cid set h, ?_⟩
  rw [removeClient_none ct reg cid set h]
  exact lookupConns_mapDelete_self reg cid hk

/-- C10 witness: client `"a"` holds two concurrent streams (sinks 1 and 2);
cancelling one tears down both — both sinks are closed and the key is gone. -/
theorem cancelSSEStream_removes_all_connections_witness :
    cancelSSEStream ctNone regAB "a" = (mapDelete regAB "a", [cA1, cA2].map Conn.sink) ∧
      lookupConns (cancelSSEStream ctNone regAB "a").1 "a" = none :=
  cancelSSEStream_removes_all_connections ctNone regAB "a" [cA1, cA2] (by decide)
    (by unfold KeysNodup; decide)

/-- C6: `getClientDetails` returns one entry per client with at least one live
connection (empty sets yield no entry), whose `lastSeen` is the maximum
`lastSeen` over that client's connections, whose `name` and `connectedAt` come
from the first-seen connection, with the rows ordered by `connectedAt`
descending (most recently connected client first). -/
theorem getClientDetails_spec (reg : Registry) :
    (getClientDetails reg).Perm (reg.filterMap clientDetailEntry) ∧
      List.Pairwise (fun a b => b.connectedAt ≤ a.connectedAt) (getClientDetails reg) ∧
      (∀ p ∈ reg, ∀ d, clientDetailEntry p = some d →
        d.id = p.1 ∧ d.connectionCount = p.2.length ∧
        (∀ c ∈ p.2, c.lastSeen ≤ d.lastSeen) ∧ (∃ c ∈ p.2, c.lastSeen = d.lastSeen) ∧
        ∃ c0 suf, p.2 = c0 :: suf ∧ d.name = c0.name ∧ d.connectedAt = c0.connectedAt) ∧
      (∀ cid, clientDetailEntry (cid, ([] : List Conn)) = none) := by
  refine ⟨?_, ?_, ?_, ?_⟩
  · unfold getClientDetails
    exact List.mergeSort_perm _ _
  · unfold getClientDetails
    refine List.Pairwise.imp ?_
      (List.sorted_mergeSort ?_ ?_ (reg.filterMap clientDetailEntry))
    · intro a b hab
      exact of_decide_eq_true hab
    · intro a b c hab hbc
      exact decide_eq_true (Nat.le_trans (of_decide_eq_true hbc) (of_decide_eq_true hab))
    · intro a b
      rcases Nat.le_total b.connectedAt a.connectedAt with h | h
      · simp [h]
      · simp [h]
  · intro p hp d hd
    obtain ⟨cid, set⟩ := p
    cases set with
    | nil => simp [clientDetailEntry] at hd
    | cons c0 suf =>
      simp only [clientDetailEntry, Option.some.injEq] at hd
      rw [← hd]
      refine ⟨rfl, rfl, ?_, ?_, c0, suf, rfl, rfl, rfl⟩
      · exact maxLastSeen_ge (c0 :: suf)
      · exact maxLastSeen_mem (c0 :: suf) (by simp)
  · intro cid
    rfl

/-- Fixture connections for the `lastSeen = [10, 30, 20]` scenario. -/
def cD1 : Conn := ⟨"A", none, 1, 10, 3⟩

/-- Second connection of the scenario, the freshest (`lastSeen = 30`). -/
def cD2 : Conn := ⟨"A", none, 2, 30, 3⟩

/-- Third connection of the scenario (`lastSeen = 20`). -/
def cD3 : Conn := ⟨"A", none, 3, 20, 3⟩

/-- Fixture registry for the details scenario. -/
def regD : Registry := [("A", [cD1, cD2, cD3])]

/-- C6 witness: for the client whose connections have `lastSeen` values
`[10, 30, 20]`, the reported row has the maximum, 30, and carries the
first-seen connection's metadata. -/
theorem getClientDetails_spec_witness :
    (⟨"A", none, 3, 3, 30⟩ : ClientDetail).id = ("A", [cD1, cD2, cD3]).1 ∧
      (⟨"A", none, 3, 3, 30⟩ : ClientDetail).connectionCount =
        ("A", [cD1, cD2, cD3]).2.length ∧
      (∀ c ∈ ("A", [cD1, cD2, cD3]).2,
        c.lastSeen ≤ (⟨"A", none, 3, 3, 30⟩ : ClientDetail).lastSeen) ∧
      (∃ c ∈ ("A", [cD1, cD2, cD3]).2,
        c.lastSeen = (⟨"A", none, 3, 3, 30⟩ : ClientDetail).lastSeen) ∧
      ∃ c0 suf, ("A", [cD1, cD2, cD3]).2 = c0 :: suf ∧
        (⟨"A", none, 3, 3, 30⟩ : ClientDetail).name = c0.name ∧
        (⟨"A", none, 3, 3, 30⟩ : ClientDetail).connectedAt = c0.connectedAt :=
  (getClientDetails_spec regD).2.2.1 ("A", [cD1, cD2, cD3]) (by decide)
    ⟨"A", none, 3, 3, 30⟩ (by decide)

/-- C7: `getConnectionMetrics` reports `totalConnections` equal to the sum of
connection-set sizes (the `totalConnections()` view), `totalClients` equal to
the registry key count, and `averageConnectionsPerClient` equal to
`totalConnections / totalClients` rounded to 2 decimal places
(`Math.round(x * 100) / 100`, i.e. `round (x * 100) / 100`), defined as 0 when
`totalClients = 0`; with zero clients it returns
`{totalConnections := 0, totalClients := 0, averageConnectionsPerClient := 0}`. -/
theorem getConnectionMetrics_spec (reg : Registry) :
    (getConnectionMetrics reg).totalConnections = totalConnections reg ∧
      (getConnectionMetrics reg).totalClients = (getConnectedClients reg).length ∧
      ((getConnectionMetrics reg).totalClients = 0 →
        (getConnectionMetrics reg).averageConnectionsPerClient = 0) ∧
      (0 < (getConnectionMetrics reg).totalClients →
        (getConnectionMetrics reg).averageConnectionsPerClient =
          ((round (((totalConnections reg : ℚ) / (reg.length : ℚ)) * 100) : ℤ) : ℚ) / 100) ∧
      getConnectionMetrics [] = ⟨0, 0, 0⟩ := by
  refine ⟨rfl, ?_, ?_, ?_, ?_⟩
  · simp [getConnectionMetrics, getConnectedClients]
  · intro h
    have hz : reg.length = 0 := h
    simp only [getConnectionMetrics]
    rw [if_neg (by omega : ¬ reg.length > 0)]
    exact round2_zero
  · intro h
    have hz : 0 < reg.length := h
    simp only [getConnectionMetrics]
    rw [if_pos hz, round2, round_eq]
    rfl
  · have hfin : getConnectionMetrics [] =
        ⟨0, 0, round2 (if (0 : Nat) > 0 then ((0 : Nat) : ℚ) / ((0 : Nat) : ℚ) else 0)⟩ := rfl
    rw [hfin]
    simp [round2_zero]

/-- C7 witness: on the two-client fixture (3 connections over 2 clients) the
average is `round(3/2·100)/100`, and with zero clients the average is 0. -/
theorem getConnectionMetrics_spec_witness :
    (getConnectionMetrics regAB).averageConnectionsPerClient =
        ((round (((totalConnections regAB : ℚ) / (regAB.length : ℚ)) * 100) : ℤ) : ℚ) / 100 ∧
      (getConnectionMetrics []).averageConnectionsPerClient = 0 :=
  ⟨(getConnectionMetrics_spec regAB).2.2.2.1 (by decide),
   (getConnectionMetrics_spec []).2.2.1 (by decide)⟩

/-- C8: one heartbeat tick attempts to write the heartbeat frame (reserved
event name `__heartbeat`, payload the current timestamp) to every connection in
the registry; a successful write refreshes that connection's `lastSeen` to the
tick time while a failing one evicts exactly that connection (closing its
sink), leaving other clients' connections untouched — the final registry is the
entry-wise sweep transformation; the per-tick dead-connection counter equals
the number of failing connections; and the summary log entry (dead count plus
resulting total connection count) is emitted exactly when that counter is
nonzero. -/
theorem heartbeatTick_spec (ct w : Nat → Bool) (now : Nat) (reg : Registry)
    (hk : KeysNodup reg) (hs : SinksNodupPer reg) (hne : NoEmptySets reg) :
    heartbeatTick ct w now reg =
      ⟨reg.filterMap (sweepEntry w now),
       (allConns reg).countP (fun c => !w c.sink),
       reg.flatMap (fun p => attempts w (heartbeatFrame now) p.2),
       reg.flatMap (fun p => evictedSinks w p.2),
       if (allConns reg).countP (fun c => !w c.sink) > 0 then
         some ((allConns reg).countP (fun c => !w c.sink),
               totalConnections (reg.filterMap (sweepEntry w now)))
       else none⟩ ∧
      ((heartbeatTick ct w now reg).summary = none ↔
        (heartbeatTick ct w now reg).dead = 0) := by
  have hfull := hbOuter_full ct w now reg [] 0 [] [] (by simpa using hk)
    (fun p hp => hs p hp) (fun p hp => hne p hp)
  rw [show (([] : Registry) ++ reg) = reg from rfl] at hfull
  constructor
  · simp only [heartbeatTick, hfull]
    simp [allConns]
    have hz : 0 + List.countP (fun c => !w c.sink) (List.flatMap reg fun p => p.2) =
        List.countP (fun c => !w c.sink) (List.flatMap reg fun p => p.2) := Nat.zero_add _
    rw [hz]
  · rcases hto : hbOuter ct w now reg reg 0 [] [] with ⟨r1, d1, w1, c1⟩
    simp only [heartbeatTick, hto]
    by_cases hd : d1 > 0
    · rw [if_pos hd]
      simp
      omega
    · rw [if_neg hd]
      simp
      omega

/-- C8 witness: on the two-client fixture with the probe write failing exactly
on sink 1, the tick evicts that one connection of `"a"`, refreshes the others'
`lastSeen` to the tick time, counts 1 dead connection, and emits the summary. -/
theorem heartbeatTick_spec_witness :
    heartbeatTick ctNone wNot1 9 regAB =
      ⟨regAB.filterMap (sweepEntry wNot1 9),
       (allConns regAB).countP (fun c => !wNot1 c.sink),
       regAB.flatMap (fun p => attempts wNot1 (heartbeatFrame 9) p.2),
       regAB.flatMap (fun p => evictedSinks wNot1 p.2),
       if (allConns regAB).countP (fun c => !wNot1 c.sink) > 0 then
         some ((allConns regAB).countP (fun c => !wNot1 c.sink),
               totalConnections (regAB.filterMap (sweepEntry wNot1 9)))
       else none⟩ ∧
      regAB.filterMap (sweepEntry wNot1 9) =
        [("a", [⟨"a", none, 2, 9, 0⟩]), ("b", [⟨"b", some "B", 3, 9, 0⟩])] :=
  ⟨(heartbeatTick_spec ctNone wNot1 9 regAB (by unfold KeysNodup; decide)
      (by unfold SinksNodupPer; decide) (by unfold NoEmptySets; decide)).1,
   by decide⟩

/-- Modelled from the spec's words (§5: iteration-while-mutating hazards "must
be avoided by snapshotting the iteration target before writing"): the variant
of `sendEvent` whose loop iterates `Array.from(set)` — the snapshot taken
before the sweep (`snapLoop`, as `broadcast` and the heartbeat tick do) —
instead of the live set that `sse.ts` line 230 actually iterates. -/
def sendEventSnapshotted (closeThrows writeOk : Nat → Bool) (now : Nat) (reg : Registry)
    (clientId eventName payload : String) : SendOut :=
  match lookupConns reg clientId with
  | none => ⟨false, reg, [], []⟩
  | some set =>
    if set.isEmpty then ⟨false, reg, [], []⟩
    else
      let chunk := frame eventName payload
      let (reg1, cnt, ws, cl) := snapLoop closeThrows writeOk now clientId chunk set reg 0 [] []
      ⟨cnt != 0, reg1, ws, cl⟩

/-- C9 counterexample: `sendEvent` does NOT snapshot the connection set before
iterating — its loop (`for (const c of set)`, `sse.ts` line 230) iterates the
live set, and an eviction mutates the very collection being iterated.  At this
concrete input (client `"a"` with connections on sinks 1 and 2, the write on
sink 1 failing), the live set observed by the loop is `[cA1, cA2]` before the
first visit but already `[cA2]` before the second visit — it changed while the
iteration was still in progress, refuting the claim that every sweep
(`broadcast`, `sendEvent`, heartbeat) snapshots the set so that evictions never
mutate the iterated collection. -/
theorem sendEvent_no_snapshot_counterexample :
    sendLoopLiveTrace ctNone wOk2 5 "a" (frame "evt" "p") [cA1, cA2] regA =
        [some [cA1, cA2], some [cA2], some [touchConn cA2 5]] ∧
      some [cA1, cA2] ≠ some [cA2] := by
  decide

/-- C9 amended: `broadcast` and the heartbeat tick do snapshot each connection
set before iterating (their inner loops run over `Array.from(set)`, a copy
fixed at sweep start); `sendEvent` iterates the live set instead and its
evictions do mutate the iterated collection, but an eviction only ever removes
the connection currently being visited, so `sendEvent` is observationally
equivalent to the snapshotting variant — no connection is skipped and the
result (return value, registry, writes, closed sinks) is identical. -/
theorem sweeps_snapshot_amended (ct w : Nat → Bool) (now : Nat) (reg : Registry)
    (cid en pl : String) (hs : SinksNodupPer reg) :
    sendEvent ct w now reg cid en pl = sendEventSnapshotted ct w now reg cid en pl := by
  cases hl : lookupConns reg cid with
  | none => simp [sendEvent, sendEventSnapshotted, hl]
  | some set =>
    by_cases he : set.isEmpty = true
    · simp [sendEvent, sendEventSnapshotted, hl, he]
    · have hnd : (set.map Conn.sink).Nodup := hs (cid, set) (lookupConns_mem reg cid set hl)
      have heq := sendLoop_eq_snapLoop ct w now cid (frame en pl) set [] reg 0 [] []
        (by simpa using hl) (by simpa using hnd)
      simp only [sendEvent, sendEventSnapshotted, hl, he, Bool.false_eq_true, if_false, heq]

/-- C9 amended witness: at the concrete input of the counterexample, the live
iteration and the snapshotting variant produce the same outcome. -/
theorem sweeps_snapshot_amended_witness :
    sendEvent ctNone wOk2 5 regA "a" "evt" "p" =
      sendEventSnapshotted ctNone wOk2 5 regA "a" "evt" "p" :=
  sweeps_snapshot_amended ctNone wOk2 5 regA "a" "evt" "p"
    (by unfold SinksNodupPer; decide)
